import Mathlib

set_option linter.unusedVariables false
set_option linter.unreachableTactic false
set_option linter.unusedTactic false

/-!
Shallow embedding of the galera send monitor (src/gcs/src/gcs_sm.h) and of the
transaction registry (src/galera/src/wsdb.cpp), together with a thread
interleaving semantics for the monitor.  Each monitor operation, as in the C
source, is a critical section protected by the monitor mutex; a blocked
`gcs_sm_enter` occupies two sections (enqueue-and-wait, and the resumption
after the condition variable is signalled), and `gcs_sm_schedule` returns with
the lock still held on success, so a successful schedule and the following
enter form a single atomic section.  Condition-variable signals are modelled
explicitly: an operation returns the list of thread ids it signalled, and a
blocked thread may resume only after it has been signalled.
-/

/-- Linux errno value EAGAIN (schedule fails: wait queue full). -/
def EAGAIN : Int := 11

/-- Linux errno value EBADFD (monitor closed). -/
def EBADFD : Int := 77

/-- Linux errno value EINTR (waiter was interrupted). -/
def EINTR : Int := 4

/-- Linux errno value ESRCH (interrupt target not in the waiting state). -/
def ESRCH : Int := 3

/-- One wait-queue slot: `gcs_sm_user_t` from gcs_sm.h.  The `cond` field holds
the id of the thread whose condition variable is parked in the slot (`none`
models a NULL pointer), `wait` is the waiter flag. -/
structure Slot where
  cond : Option Nat
  wait : Bool
  deriving DecidableEq, Repr

/-- Monitor state: `gcs_sm_t` from gcs_sm.h.  `cc` is GCS_SM_CC: the
concurrency parameter when GCS_SM_CONCURRENCY is defined, the constant 1
otherwise.  `users` and `entered` are C longs, modelled as unbounded integers
(their values stay tiny); `ret` is 0 while the monitor is open and the
negative close code afterwards. -/
structure SM where
  wait_q_len : Nat
  wait_q_mask : Nat
  wait_q_head : Nat
  wait_q_tail : Nat
  users : Int
  entered : Int
  ret : Int
  cc : Int
  pause : Bool
  wait_q : List Slot
  deriving DecidableEq, Repr

/-- Reads wait queue slot `i` (out-of-range reads, which the C code never
performs on valid handles, return an empty slot). -/
def getSlot (sm : SM) (i : Nat) : Slot :=
  sm.wait_q.getD i ⟨none, false⟩

/-- Writes wait queue slot `i`. -/
def setSlot (sm : SM) (i : Nat) (v : Slot) : SM :=
  { sm with wait_q := sm.wait_q.set i v }

/-- GCS_SM_INCREMENT: advance a ring cursor, `(cursor + 1) & wait_q_mask`. -/
def smInc (sm : SM) (c : Nat) : Nat :=
  (c + 1) &&& sm.wait_q_mask

/-- GCS_SM_HAS_TO_WAIT: `entered >= GCS_SM_CC || pause`. -/
def hasToWait (sm : SM) : Bool :=
  decide (sm.cc ≤ sm.entered) || sm.pause

/-- Loop body of `_gcs_sm_wake_up_next`, with an explicit fuel argument so
that the definition is structurally recursive and computes by reduction.
Each iteration either signals the condition parked at the head slot
(incrementing `woken`) or reclaims an interrupted head slot (decrementing
`users`), so `(cc - woken).toNat + users.toNat` iterations always suffice;
`gcs_sm_wake_up_next` below supplies exactly that much fuel.  Returns the
final state and the signalled thread ids in order. -/
def wakeUpNextAux (sm : SM) (woken : Int) : Nat → SM × List Nat
  | 0 => (sm, [])
  | fuel + 1 =>
    if woken < sm.cc ∧ 0 < sm.users then
      if (getSlot sm sm.wait_q_head).wait then
        let r := wakeUpNextAux sm (woken + 1) fuel
        (r.1, (match (getSlot sm sm.wait_q_head).cond with
               | some tid => [tid]
               | none => []) ++ r.2)
      else
        wakeUpNextAux
          { sm with users := sm.users - 1, wait_q_head := smInc sm sm.wait_q_head }
          woken fuel
    else (sm, [])

/-- Fuel that makes `wakeUpNextAux` run to completion of the C loop. -/
def wakeFuel (sm : SM) (woken : Int) : Nat :=
  (sm.cc - woken).toNat + sm.users.toNat

/-- Models `_gcs_sm_wake_up_next` from gcs_sm.h: starting with
`woken = entered`, wake waiters at the head of the queue while
`woken < GCS_SM_CC && users > 0`, skipping (and reclaiming) interrupted
slots. -/
def gcs_sm_wake_up_next (sm : SM) : SM × List Nat :=
  wakeUpNextAux sm sm.entered (wakeFuel sm sm.entered)

/-- Models `_gcs_sm_leave_common` from gcs_sm.h: release the head slot,
advance the head cursor, and wake the next waiters unless paused. -/
def gcs_sm_leave_common (sm : SM) : SM × List Nat :=
  let sm1 := { sm with users := sm.users - 1, wait_q_head := smInc sm sm.wait_q_head }
  if sm1.pause then (sm1, []) else gcs_sm_wake_up_next sm1

/-- Models `gcs_sm_schedule` from gcs_sm.h.  Returns the schedule result and
the updated state.  On success the C function returns with the monitor lock
still held, which the interleaving semantics accounts for by fusing a
successful schedule with the following enter into one step. -/
def gcs_sm_schedule (sm : SM) : Int × SM :=
  let ret := sm.ret
  if sm.users < (sm.wait_q_len : Int) ∧ ret = 0 then
    let sm1 := { sm with users := sm.users + 1, wait_q_tail := smInc sm sm.wait_q_tail }
    if hasToWait sm1 then ((sm1.wait_q_tail : Int) + 1, sm1) else (0, sm1)
  else if ret = 0 then (-EAGAIN, sm)
  else (ret, sm)

/-- Models `gcs_sm_pause` from gcs_sm.h: `sm->pause = (sm->ret == 0)`. -/
def gcs_sm_pause (sm : SM) : SM :=
  { sm with pause := decide (sm.ret = 0) }

/-- Models `_gcs_sm_continue_common` from gcs_sm.h: clear the pause flag and
wake the next waiters. -/
def gcs_sm_continue_common (sm : SM) : SM × List Nat :=
  gcs_sm_wake_up_next { sm with pause := false }

/-- Models `gcs_sm_interrupt` from gcs_sm.h.  Returns the result code, the
updated state, and the signalled thread ids (the interrupted waiter first,
then any waiter promoted when the interrupted slot was at the head of an
unpaused queue). -/
def gcs_sm_interrupt (sm : SM) (handle : Nat) : Int × SM × List Nat :=
  let idx := handle - 1
  let s0 := getSlot sm idx
  if s0.wait then
    let direct := match s0.cond with
                  | some tid => [tid]
                  | none => []
    let sm1 := setSlot sm idx ⟨none, false⟩
    if sm1.pause = false ∧ sm1.wait_q_head = idx then
      let r := gcs_sm_wake_up_next sm1
      (0, r.1, direct ++ r.2)
    else
      (0, sm1, direct)
  else
    (-ESRCH, sm, [])

/-- Modelled from the spec: `gcs_sm_create` is declared in gcs_sm.h but its
body is not part of the sources.  Per the spec it creates an open, unpaused
monitor with a power-of-two wait queue of length `len` and concurrency `n`,
with no users and nobody entered.  The ring cursors start with the head one
position ahead of the tail, so that the first slot handed out by
`gcs_sm_schedule` (which advances the tail before using it) is the slot the
head cursor points at. -/
def gcs_sm_create (len : Nat) (n : Int) : SM :=
  { wait_q_len := len
    wait_q_mask := len - 1
    wait_q_head := 1
    wait_q_tail := 0
    users := 0
    entered := 0
    ret := 0
    cc := n
    pause := false
    wait_q := List.replicate len ⟨none, false⟩ }

/-- Modelled from the spec: `gcs_sm_close` is declared in gcs_sm.h but its
body is not part of the sources.  Per the spec it marks the monitor closed
(all further schedule and enter calls fail with the close code), wakes every
queued waiter, and returns the number of threads still queued or admitted;
the spec does not say it touches the pause flag.  Returns the count, the new
state and the signalled thread ids. -/
def gcs_sm_close (sm : SM) : Int × SM × List Nat :=
  let sm1 := { sm with ret := -EBADFD }
  (sm.users, sm1, sm1.wait_q.filterMap (fun s => if s.wait then s.cond else none))

/-- Per-thread control state in the interleaving semantics.  `waiting` records
the slot at which the thread parked its condition variable, whether its
enter call was made with `scheduled == true`, and whether its condition has
been signalled.  `done` records the (negative) result of a completed enter
call; a successful enter leads to `inside` instead, and `leftSt` follows a
leave. -/
inductive TState where
  | idle
  | waiting (slot : Nat) (pre : Bool) (signaled : Bool)
  | inside
  | leftSt
  | done (pre : Bool) (res : Int)
  deriving DecidableEq, Repr

/-- An atomic step of the system: one critical section of some monitor
operation.  `schedEnter t pre` is a call of `gcs_sm_enter` by thread `t` up to
the point where it either completes without waiting, parks on the condition
variable, or fails: with `pre = true` it models `gcs_sm_schedule` immediately
followed by `gcs_sm_enter(sm, cond, true)` (a single critical section in the
C code, because a successful schedule keeps the lock), with `pre = false` it
models `gcs_sm_enter(sm, cond, false)`.  `wake t` is the resumption of a
parked thread after its condition variable has been signalled. -/
inductive Act where
  | schedEnter (t : Nat) (pre : Bool)
  | wake (t : Nat)
  | leave (t : Nat)
  | pauseOp
  | continueOp
  | interruptOp (handle : Nat)
  | closeOp
  deriving DecidableEq, Repr

/-- Whole-system state: the monitor, the thread states, the order in which
threads were admitted into the monitor, and the log of successful schedule
results in issuance order. -/
structure Sys where
  sm : SM
  ts : Nat → TState
  entries : List Nat
  scheds : List (Nat × Int)

/-- Pointwise update of the thread-state map. -/
def tset (f : Nat → TState) (t : Nat) (v : TState) : Nat → TState :=
  fun x => if x = t then v else f x

/-- Effect of `gu_cond_signal` on the signalled thread. -/
def signalT : TState → TState
  | .waiting s p _ => .waiting s p true
  | st => st

/-- Delivers a list of condition-variable signals to their threads. -/
def deliver (sigs : List Nat) (s : Sys) : Sys :=
  { s with ts := sigs.foldl (fun f tid => tset f tid (signalT (f tid))) s.ts }

/-- Body of `gcs_sm_enter` after a successful schedule, up to the wait: if
GCS_SM_HAS_TO_WAIT the thread parks its condition variable in the slot at the
tail cursor (`_gcs_sm_enqueue_common` up to `gu_cond_wait`), otherwise it
increments `entered` and is admitted. -/
def enterBody (s : Sys) (t : Nat) (pre : Bool) : Sys :=
  if hasToWait s.sm then
    let slot := s.sm.wait_q_tail
    { s with sm := setSlot s.sm slot ⟨some t, true⟩
             ts := tset s.ts t (.waiting slot pre false) }
  else
    { s with sm := { s.sm with entered := s.sm.entered + 1 }
             ts := tset s.ts t .inside
             entries := s.entries ++ [t] }

/-- One atomic step of the interleaving semantics.  Steps whose guard does not
hold (for example waking a thread that was never signalled) leave the system
unchanged. -/
def step (s : Sys) (a : Act) : Sys :=
  match a with
  | .schedEnter t pre =>
    if s.ts t = .idle then
      let r := gcs_sm_schedule s.sm
      if 0 ≤ r.1 then
        enterBody { s with sm := r.2, scheds := s.scheds ++ [(t, r.1)] } t pre
      else if pre then s
      else { s with ts := tset s.ts t (.done false r.1) }
    else s
  | .wake t =>
    match s.ts t with
    | .waiting slot pre true =>
      let b := (getSlot s.sm slot).wait
      let sm1 := setSlot s.sm slot ⟨none, false⟩
      if b then
        if sm1.ret = 0 then
          { s with sm := { sm1 with entered := sm1.entered + 1 }
                   ts := tset s.ts t .inside
                   entries := s.entries ++ [t] }
        else
          let r2 := gcs_sm_leave_common sm1
          deliver r2.2 { s with sm := r2.1, ts := tset s.ts t (.done pre sm1.ret) }
      else
        { s with sm := sm1, ts := tset s.ts t (.done pre (-EINTR)) }
    | _ => s
  | .leave t =>
    if s.ts t = .inside then
      let r := gcs_sm_leave_common { s.sm with entered := s.sm.entered - 1 }
      deliver r.2 { s with sm := r.1, ts := tset s.ts t .leftSt }
    else s
  | .pauseOp => { s with sm := gcs_sm_pause s.sm }
  | .continueOp =>
    if s.sm.pause then
      let r := gcs_sm_continue_common s.sm
      deliver r.2 { s with sm := r.1 }
    else s
  | .interruptOp h =>
    let r := gcs_sm_interrupt s.sm h
    deliver r.2.2 { s with sm := r.2.1 }
  | .closeOp =>
    let r := gcs_sm_close s.sm
    deliver r.2.2 { s with sm := r.2.1 }

/-- System state right after `gcs_sm_create len n`, with all threads idle. -/
def initSys (len : Nat) (n : Int) : Sys :=
  { sm := gcs_sm_create len n, ts := fun _ => .idle, entries := [], scheds := [] }

/-- Runs a list of atomic steps. -/
def runActs (s : Sys) (acts : List Act) : Sys :=
  acts.foldl step s

/-!
Transaction registry, from src/galera/src/wsdb.cpp.  `TrxHandle` and `Conn`
internals (reference counting, write-set buffer, connection state) live in
headers that are not part of the sources, so they are modelled from the spec
where noted.  Object identity is modelled with a heap of addresses so that
"two lookups return the same underlying object" is expressible.
-/

/-- Modelled from the spec: a Transaction Handle (trx_handle.hpp is not part of
the sources).  Attributes per the spec data model: originating node identity,
connection id and transaction id (with -1 as the unset sentinel, as in the
wsdb.cpp constructor calls), an opaque mutable write-set byte buffer, a
reference count, and the locally-originated flag.  A freshly constructed
handle has an empty write-set and reference count 1 (the count is at least 1
while registered and the owner's entry counts as exactly one reference). -/
structure TrxHandle where
  source : Nat
  conn_id : Int
  trx_id : Int
  write_set : List Nat
  refcnt : Nat
  localTrx : Bool
  deriving DecidableEq, Repr

/-- Modelled from the spec: per-connection state (`galera::Wsdb::Conn`, whose
body is not part of the sources): the connection id, an optional owned
reference to the current transaction (an address into the handle heap), and
the stored default-database query bytes. -/
structure Conn where
  conn_id : Int
  trx : Option Nat
  default_db : List Nat
  deriving DecidableEq, Repr

/-- Association-list lookup on the first component. -/
def alFind {κ α : Type} [DecidableEq κ] (k : κ) : List (κ × α) → Option α
  | [] => none
  | p :: r => if p.1 = k then some p.2 else alFind k r

/-- Updates the first entry with the given key, if any. -/
def alSet {κ α : Type} [DecidableEq κ] (k : κ) (f : α → α) : List (κ × α) → List (κ × α)
  | [] => []
  | p :: r => if p.1 = k then (p.1, f p.2) :: r else p :: alSet k f r

/-- Removes every entry with the given key. -/
def alErase {κ α : Type} [DecidableEq κ] (k : κ) (l : List (κ × α)) : List (κ × α) :=
  l.filter (fun p => decide (p.1 ≠ k))

/-- Registry state: `galera::Wsdb`.  `heap` maps addresses to live
TrxHandle objects (`nextAddr` is the next fresh address), `trx_map` and
`conn_map` are the two key-unique maps of wsdb.cpp.  All wsdb operations run
under the single registry mutex, so each is one atomic function here. -/
structure Wsdb where
  heap : List (Nat × TrxHandle)
  nextAddr : Nat
  trx_map : List (Int × Nat)
  conn_map : List (Int × Conn)
  deriving DecidableEq, Repr

/-- Registry state produced by the `Wsdb` constructor: both maps empty. -/
def Wsdb.empty : Wsdb :=
  { heap := [], nextAddr := 0, trx_map := [], conn_map := [] }

/-- Modelled from the spec: the TrxHandle constructor (empty write-set,
reference count 1). -/
def newTrx (source : Nat) (conn_id trx_id : Int) (loc : Bool) : TrxHandle :=
  { source := source, conn_id := conn_id, trx_id := trx_id,
    write_set := [], refcnt := 1, localTrx := loc }

/-- Reference count of the object at address `a` (0 if the address is dead). -/
def refcnt (w : Wsdb) (a : Nat) : Nat :=
  match alFind a w.heap with
  | some t => t.refcnt
  | none => 0

/-- Write-set bytes of the object at address `a`. -/
def wsOf (w : Wsdb) (a : Nat) : List Nat :=
  match alFind a w.heap with
  | some t => t.write_set
  | none => []

/-- Modelled from the spec: `TrxHandle::ref`, increments the count. -/
def refTrx (w : Wsdb) (a : Nat) : Wsdb :=
  { w with heap := alSet a (fun t => { t with refcnt := t.refcnt + 1 }) w.heap }

/-- Modelled from the spec: `TrxHandle::unref`, decrements the count and
destroys the object when the last reference is released. -/
def unrefHeap (w : Wsdb) (a : Nat) : Wsdb :=
  match alFind a w.heap with
  | none => w
  | some t =>
    if t.refcnt ≤ 1 then { w with heap := alErase a w.heap }
    else { w with heap := alSet a (fun t => { t with refcnt := t.refcnt - 1 }) w.heap }

/-- Allocates a fresh TrxHandle object on the heap. -/
def allocTrx (w : Wsdb) (t : TrxHandle) : Nat × Wsdb :=
  (w.nextAddr, { w with heap := (w.nextAddr, t) :: w.heap, nextAddr := w.nextAddr + 1 })

/-- Models `galera::Wsdb::create_trx`: allocates a new locally-originated
handle with no connection id and inserts it into the trx map.  The C++
insert-collision check (`gu_throw_fatal`) cannot fire because the only caller
looks the id up first under the same lock. -/
def create_trx (w : Wsdb) (source : Nat) (trx_id : Int) : Nat × Wsdb :=
  let r := allocTrx w (newTrx source (-1) trx_id true)
  (r.1, { r.2 with trx_map := (trx_id, r.1) :: r.2.trx_map })

/-- Models `galera::Wsdb::create_conn`: inserts a fresh connection state. -/
def create_conn (w : Wsdb) (conn_id : Int) : Wsdb :=
  { w with conn_map := (conn_id, ⟨conn_id, none, []⟩) :: w.conn_map }

/-- Models `galera::Wsdb::get_trx` (the spec's get_or_create_trx): look up by
trx id, optionally create, and increment the reference count of the returned
handle. -/
def get_trx (w : Wsdb) (source : Nat) (trx_id : Int) (create : Bool) : Option Nat × Wsdb :=
  match alFind trx_id w.trx_map with
  | none =>
    if create then
      let r := create_trx w source trx_id
      (some r.1, refTrx r.2 r.1)
    else (none, w)
  | some a => (some a, refTrx w a)

/-- Models `galera::Wsdb::unref_trx` (the spec's release_trx).  The boolean
result is the value of the C `assert(trx->refcnt() > 1)`: `false` means the
call was a programming error (there is no recoverable error path); the
decrement itself is what the code does when assertions are compiled out. -/
def unref_trx (w : Wsdb) (a : Nat) : Bool × Wsdb :=
  (decide (1 < refcnt w a), unrefHeap w a)

/-- Models `galera::Wsdb::discard_trx`: if the id is mapped, release the
registry's baseline reference and remove the map entry. -/
def discard_trx (w : Wsdb) (trx_id : Int) : Wsdb :=
  match alFind trx_id w.trx_map with
  | some a =>
    let w1 := unrefHeap w a
    { w1 with trx_map := alErase trx_id w1.trx_map }
  | none => w

/-- Modelled from the spec: `Conn::assign_trx` (trx_handle.hpp is not part of
the sources).  Detaching releases the connection's owned reference to the
previously attached transaction; attaching stores the new address, taking
over the constructing reference without a further increment (per the spec,
no implicit refcount bump beyond the attach). -/
def assign_trx (w : Wsdb) (conn_id : Int) (a : Option Nat) : Wsdb :=
  match alFind conn_id w.conn_map with
  | none => w
  | some c =>
    let w1 := match c.trx with
              | some old => unrefHeap w old
              | none => w
    { w1 with conn_map := alSet conn_id (fun c => { c with trx := a }) w1.conn_map }

/-- Models `galera::Wsdb::get_conn_query` (the spec's get_or_create_conn_trx).
If the connection is unknown and `create` holds, a connection state and a
fresh conn-bound handle are created and attached.  If the connection exists
with no attached transaction and `create` holds, a fresh handle is created,
the stored default-database bytes (when nonempty) are prepended to its
write-set (`WriteSet::prepend_query`, modelled from the spec as byte
concatenation), and it is attached.  Otherwise the currently attached
transaction (possibly none) is returned unchanged. -/
def get_conn_query (w : Wsdb) (source : Nat) (conn_id : Int) (create : Bool) :
    Option Nat × Wsdb :=
  match alFind conn_id w.conn_map with
  | none =>
    if create then
      let w1 := create_conn w conn_id
      let r := allocTrx w1 (newTrx source conn_id (-1) true)
      (some r.1, assign_trx r.2 conn_id (some r.1))
    else (none, w)
  | some c =>
    if c.trx = none ∧ create then
      let t0 := newTrx source conn_id (-1) true
      let t1 := if c.default_db ≠ [] then
                  { t0 with write_set := c.default_db ++ t0.write_set }
                else t0
      let r := allocTrx w t1
      (some r.1, assign_trx r.2 conn_id (some r.1))
    else (c.trx, w)

/-- Models `galera::Wsdb::discard_conn_query`: if the connection exists,
detach (and thereby release) its current transaction. -/
def discard_conn_query (w : Wsdb) (conn_id : Int) : Wsdb :=
  match alFind conn_id w.conn_map with
  | some _ => assign_trx w conn_id none
  | none => w

/-- Models `galera::Wsdb::discard_conn`: removes the connection state, first
releasing its attached transaction (the release is performed by the Conn
destructor, modelled from the spec). -/
def discard_conn (w : Wsdb) (conn_id : Int) : Wsdb :=
  match alFind conn_id w.conn_map with
  | some c =>
    let w1 := match c.trx with
              | some old => unrefHeap w old
              | none => w
    { w1 with conn_map := alErase conn_id w1.conn_map }
  | none => w

/-- Models `galera::Wsdb::set_conn_database` (the spec's
set_conn_default_database): find or create the connection state and store the
query bytes as its default-database context. -/
def set_conn_database (w : Wsdb) (conn_id : Int) (q : List Nat) : Wsdb :=
  match alFind conn_id w.conn_map with
  | some _ => { w with conn_map := alSet conn_id (fun c => { c with default_db := q }) w.conn_map }
  | none =>
    let w1 := create_conn w conn_id
    { w1 with conn_map := alSet conn_id (fun c => { c with default_db := q }) w1.conn_map }

/-!
Auxiliary definitions used by the theorems below: ring-cursor iteration, an
invariant on system states, iterated registry calls, and the concrete states
and schedules appearing in witnesses and counterexamples.
-/

/-- Iterated ring-cursor increment. -/
def incIter (sm : SM) (c : Nat) : Nat → Nat
  | 0 => c
  | k + 1 => incIter sm (smInc sm c) k

/-- Invariant of the interleaving semantics backing the enter-result theorem:
the close code is the only nonzero value `ret` ever takes, and every
completed enter call returned EINTR, the close code, or (only when the call
was made with `scheduled == false`) EAGAIN. -/
def SysInv (s : Sys) : Prop :=
  (s.sm.ret = 0 ∨ s.sm.ret = -EBADFD) ∧
  ∀ t p r, s.ts t = .done p r →
    (r = -EINTR ∨ r = -EBADFD ∨ (p = false ∧ r = -EAGAIN))

/-- Iterated `get_trx` acquisition with create on a fixed id. -/
def getN (src : Nat) (id : Int) : Nat → Wsdb → Wsdb
  | 0, w => w
  | k + 1, w => getN src id k (get_trx w src id true).2

/-- Iterated `unref_trx` release of a fixed handle. -/
def unrefN (a : Nat) : Nat → Wsdb → Wsdb
  | 0, w => w
  | k + 1, w => unrefN a k (unref_trx w a).2

/-- Schedule interleaving exhibiting a FIFO violation: thread 1 obtains
ticket 3 before thread 3 obtains ticket 5, nobody is interrupted and the
monitor is never paused, yet thread 3 is admitted before thread 1. -/
def c2Acts : List Act :=
  [.schedEnter 0 true, .schedEnter 1 true, .leave 0, .schedEnter 2 true,
   .schedEnter 3 true, .leave 2, .wake 3, .wake 1]

/-- An enter call with `scheduled == false` against a full wait queue. -/
def c4Acts : List Act :=
  [.schedEnter 0 false, .schedEnter 1 false, .schedEnter 2 false]

/-- Interleaving driving `entered` above the concurrency cap: thread 1 is
signalled by thread 0's leave, thread 2 schedules and enters through the free
slot before thread 1 resumes, and thread 1 then also enters. -/
def c5Acts : List Act :=
  [.schedEnter 0 true, .schedEnter 1 true, .leave 0, .schedEnter 2 true, .wake 1]

/-- Interleaving in which thread 1 is signalled for admission, the monitor is
then paused, and thread 1 completes its admission while the pause is
active. -/
def c6ActsA : List Act :=
  [.schedEnter 0 true, .schedEnter 1 true, .leave 0, .pauseOp]

/-- Pause followed by close: yields a monitor that is closed and paused. -/
def c6ActsB : List Act :=
  [.pauseOp, .closeOp]

/-- Monitor state with thread 1 parked at slot 2 (used by witnesses). -/
def smWait : SM :=
  (runActs (initSys 4 1) [.schedEnter 0 true, .schedEnter 1 true]).sm

/-- Monitor state right after a leave signalled the parked thread 1. -/
def smSignaled : SM :=
  (runActs (initSys 4 1) [.schedEnter 0 true, .schedEnter 1 true, .leave 0]).sm

/-- Monitor state whose head slot holds an interrupted (reclaimed later)
waiter record while a live waiter sits behind it. -/
def smSkip : SM :=
  { wait_q_len := 4, wait_q_mask := 3, wait_q_head := 1, wait_q_tail := 2,
    users := 1, entered := 0, ret := 0, cc := 1, pause := false,
    wait_q := [⟨none, false⟩, ⟨none, false⟩, ⟨some 1, true⟩, ⟨none, false⟩] }

/-!
Helper lemmas.
-/

theorem list_getD_set_self {α : Type} (l : List α) (i : Nat) (v d : α)
    (h : i < l.length) : (l.set i v).getD i d = v := by
  induction l generalizing i with
  | nil => simp at h
  | cons a t ih =>
    cases i with
    | zero => rfl
    | succ j =>
      simp only [List.set, List.getD, List.getElem?_cons_succ]
      have := ih j (by simpa using h)
      simpa [List.getD] using this

theorem getSlot_setSlot_self (sm : SM) (i : Nat) (v : Slot)
    (h : i < sm.wait_q.length) : getSlot (setSlot sm i v) i = v := by
  simp only [getSlot, setSlot]
  exact list_getD_set_self sm.wait_q i v _ h

theorem alFind_alSet_self {κ α : Type} [DecidableEq κ] (k : κ) (f : α → α)
    (l : List (κ × α)) : alFind k (alSet k f l) = (alFind k l).map f := by
  induction l with
  | nil => rfl
  | cons p r ih =>
    by_cases hk : p.1 = k
    · simp [alSet, alFind, hk]
    · simp [alSet, alFind, hk, ih]

theorem alFind_alErase {κ α : Type} [DecidableEq κ] (k : κ) (l : List (κ × α)) :
    alFind k (alErase k l) = none := by
  induction l with
  | nil => rfl
  | cons p r ih =>
    by_cases hk : p.1 = k
    · simpa [alErase, hk] using ih
    · simpa [alErase, alFind, hk] using ih

theorem incIter_congr (sm1 sm2 : SM) (hm : sm1.wait_q_mask = sm2.wait_q_mask)
    (c : Nat) (k : Nat) : incIter sm1 c k = incIter sm2 c k := by
  induction k generalizing c with
  | zero => rfl
  | succ n ih =>
    simp only [incIter, smInc, hm]
    exact ih _

theorem wakeAux_fields (fuel : Nat) : ∀ (sm : SM) (woken : Int),
    (wakeUpNextAux sm woken fuel).1.wait_q = sm.wait_q ∧
    (wakeUpNextAux sm woken fuel).1.entered = sm.entered ∧
    (wakeUpNextAux sm woken fuel).1.cc = sm.cc ∧
    (wakeUpNextAux sm woken fuel).1.ret = sm.ret ∧
    (wakeUpNextAux sm woken fuel).1.pause = sm.pause ∧
    (wakeUpNextAux sm woken fuel).1.wait_q_tail = sm.wait_q_tail ∧
    (wakeUpNextAux sm woken fuel).1.wait_q_len = sm.wait_q_len ∧
    (wakeUpNextAux sm woken fuel).1.wait_q_mask = sm.wait_q_mask := by
  induction fuel with
  | zero => intro sm woken; simp [wakeUpNextAux]
  | succ n ih =>
    intro sm woken
    simp only [wakeUpNextAux]
    split
    · split
      · exact ih sm (woken + 1)
      · simpa using ih { sm with users := sm.users - 1,
                                 wait_q_head := smInc sm sm.wait_q_head } woken
    · simp

theorem skipState_incIter (sm : SM) (c k : Nat) :
    incIter { sm with users := sm.users - 1, wait_q_head := smInc sm sm.wait_q_head } c k =
    incIter sm c k :=
  incIter_congr { sm with users := sm.users - 1, wait_q_head := smInc sm sm.wait_q_head }
    sm rfl c k

theorem skipState_getSlot (sm : SM) (i : Nat) :
    getSlot { sm with users := sm.users - 1, wait_q_head := smInc sm sm.wait_q_head } i =
    getSlot sm i := rfl

theorem incIter_succ (sm : SM) (c k : Nat) :
    incIter sm c (k + 1) = incIter sm (smInc sm c) k := rfl

theorem wakeAux_walk (fuel : Nat) : ∀ (sm : SM) (woken : Int),
    ∃ k, (wakeUpNextAux sm woken fuel).1.wait_q_head = incIter sm sm.wait_q_head k ∧
         (wakeUpNextAux sm woken fuel).1.users = sm.users - (k : Int) ∧
         ∀ j, j < k → (getSlot sm (incIter sm sm.wait_q_head j)).wait = false := by
  induction fuel with
  | zero =>
    intro sm woken
    refine ⟨0, rfl, by simp [wakeUpNextAux], ?_⟩
    intro j hj
    exact absurd hj (Nat.not_lt_zero j)
  | succ n ih =>
    intro sm woken
    by_cases hg : woken < sm.cc ∧ 0 < sm.users
    · by_cases hw : (getSlot sm sm.wait_q_head).wait = true
      · have hgoal : (wakeUpNextAux sm woken (n + 1)).1 = (wakeUpNextAux sm (woken + 1) n).1 := by
          simp only [wakeUpNextAux]
          rw [if_pos hg, if_pos hw]
        rw [hgoal]
        exact ih sm (woken + 1)
      · have hgoal : wakeUpNextAux sm woken (n + 1) =
            wakeUpNextAux
              { sm with users := sm.users - 1, wait_q_head := smInc sm sm.wait_q_head }
              woken n := by
          simp only [wakeUpNextAux]
          rw [if_pos hg, if_neg hw]
        rw [hgoal]
        obtain ⟨k, hh, hu, hj⟩ :=
          ih { sm with users := sm.users - 1, wait_q_head := smInc sm sm.wait_q_head } woken
        rw [skipState_incIter] at hh
        refine ⟨k + 1, ?_, ?_, ?_⟩
        · rw [incIter_succ]
          exact hh
        · rw [hu]
          show sm.users - 1 - (k : Int) = sm.users - ((k : Nat) + 1 : Nat)
          push_cast
          ring
        · intro j hjk
          cases j with
          | zero =>
            show (getSlot sm sm.wait_q_head).wait = false
            simpa using hw
          | succ m =>
            have hm := hj m (by omega)
            rw [skipState_getSlot, skipState_incIter] at hm
            rw [incIter_succ]
            exact hm
    · have hgoal : wakeUpNextAux sm woken (n + 1) = (sm, []) := by
        simp only [wakeUpNextAux]
        rw [if_neg hg]
      rw [hgoal]
      refine ⟨0, rfl, by simp, ?_⟩
      intro j hj
      exact absurd hj (Nat.not_lt_zero j)

theorem wakeAux_head_stay (fuel : Nat) (sm : SM) (woken : Int)
    (hw : (getSlot sm sm.wait_q_head).wait = true) :
    (wakeUpNextAux sm woken fuel).1.wait_q_head = sm.wait_q_head := by
  obtain ⟨k, hh, hu, hj⟩ := wakeAux_walk fuel sm woken
  cases k with
  | zero => exact hh
  | succ m =>
    have h0 := hj 0 (Nat.succ_pos m)
    simp only [incIter] at h0
    rw [hw] at h0
    cases h0

theorem wakeAux_sig (fuel : Nat) : ∀ (sm : SM) (woken : Int) (tid : Nat),
    tid ∈ (wakeUpNextAux sm woken fuel).2 →
    (getSlot sm (wakeUpNextAux sm woken fuel).1.wait_q_head).wait = true ∧
    (getSlot sm (wakeUpNextAux sm woken fuel).1.wait_q_head).cond = some tid := by
  induction fuel with
  | zero =>
    intro sm woken tid h
    simp [wakeUpNextAux] at h
  | succ n ih =>
    intro sm woken tid h
    by_cases hg : woken < sm.cc ∧ 0 < sm.users
    · by_cases hw : (getSlot sm sm.wait_q_head).wait = true
      · have hgoal : wakeUpNextAux sm woken (n + 1) =
            ((wakeUpNextAux sm (woken + 1) n).1,
             (match (getSlot sm sm.wait_q_head).cond with
              | some tid => [tid]
              | none => []) ++ (wakeUpNextAux sm (woken + 1) n).2) := by
          simp only [wakeUpNextAux]
          rw [if_pos hg, if_pos hw]
        rw [hgoal] at h ⊢
        have hstay := wakeAux_head_stay n sm (woken + 1) hw
        rcases List.mem_append.mp h with hin | hin
        · cases hcond : (getSlot sm sm.wait_q_head).cond with
          | none => rw [hcond] at hin; cases hin
          | some c =>
            rw [hcond] at hin
            have : tid = c := by simpa using hin
            subst this
            rw [hstay]
            exact ⟨hw, hcond⟩
        · have := ih sm (woken + 1) tid hin
          exact this
      · have hgoal : wakeUpNextAux sm woken (n + 1) =
            wakeUpNextAux
              { sm with users := sm.users - 1, wait_q_head := smInc sm sm.wait_q_head }
              woken n := by
          simp only [wakeUpNextAux]
          rw [if_pos hg, if_neg hw]
        rw [hgoal] at h ⊢
        exact ih _ woken tid h
    · have hgoal : wakeUpNextAux sm woken (n + 1) = (sm, []) := by
        simp only [wakeUpNextAux]
        rw [if_neg hg]
      rw [hgoal] at h
      cases h

theorem wakeAux_count (fuel : Nat) : ∀ (sm : SM) (woken : Int),
    (wakeUpNextAux sm woken fuel).2 = [] ∨
    woken + ((wakeUpNextAux sm woken fuel).2.length : Int) ≤ sm.cc := by
  induction fuel with
  | zero => intro sm woken; left; rfl
  | succ n ih =>
    intro sm woken
    by_cases hg : woken < sm.cc ∧ 0 < sm.users
    · by_cases hw : (getSlot sm sm.wait_q_head).wait = true
      · have hgoal : wakeUpNextAux sm woken (n + 1) =
            ((wakeUpNextAux sm (woken + 1) n).1,
             (match (getSlot sm sm.wait_q_head).cond with
              | some tid => [tid]
              | none => []) ++ (wakeUpNextAux sm (woken + 1) n).2) := by
          simp only [wakeUpNextAux]
          rw [if_pos hg, if_pos hw]
        rw [hgoal]
        have hopt : (match (getSlot sm sm.wait_q_head).cond with
            | some tid => [tid]
            | none => ([] : List Nat)).length ≤ 1 := by
          cases (getSlot sm sm.wait_q_head).cond <;> simp
        rcases ih sm (woken + 1) with h0 | hle
        · right
          simp only [List.length_append, h0, List.length_nil]
          have h1 := hg.1
          push_cast
          omega
        · right
          simp only [List.length_append]
          push_cast
          omega
      · have hgoal : wakeUpNextAux sm woken (n + 1) =
            wakeUpNextAux
              { sm with users := sm.users - 1, wait_q_head := smInc sm sm.wait_q_head }
              woken n := by
          simp only [wakeUpNextAux]
          rw [if_pos hg, if_neg hw]
        rw [hgoal]
        exact ih _ woken
    · left
      simp only [wakeUpNextAux]
      rw [if_neg hg]

theorem wake_wait_q (sm : SM) : (gcs_sm_wake_up_next sm).1.wait_q = sm.wait_q :=
  (wakeAux_fields _ sm _).1

theorem wake_ret (sm : SM) : (gcs_sm_wake_up_next sm).1.ret = sm.ret :=
  (wakeAux_fields _ sm _).2.2.2.1

theorem leave_common_ret (sm : SM) : (gcs_sm_leave_common sm).1.ret = sm.ret := by
  unfold gcs_sm_leave_common
  dsimp only
  split
  · rfl
  · exact wake_ret _

theorem interrupt_ret (sm : SM) (hdl : Nat) :
    (gcs_sm_interrupt sm hdl).2.1.ret = sm.ret := by
  unfold gcs_sm_interrupt
  dsimp only
  split
  · split
    · exact wake_ret _
    · rfl
  · rfl

theorem sched_ret (sm : SM) : (gcs_sm_schedule sm).2.ret = sm.ret := by
  unfold gcs_sm_schedule
  dsimp only
  split
  · split <;> rfl
  · split <;> rfl

theorem sched_fail (sm : SM) (h : (gcs_sm_schedule sm).1 < 0) :
    ((gcs_sm_schedule sm).1 = -EAGAIN ∧ sm.ret = 0) ∨ (gcs_sm_schedule sm).1 = sm.ret := by
  unfold gcs_sm_schedule at h ⊢
  dsimp only at h ⊢
  split at h
  · split at h
    · exfalso
      dsimp only at h
      omega
    · exact absurd h (by omega)
  · rename_i hfail
    split at h
    · rename_i hr0
      left
      rw [if_neg hfail, if_pos hr0]
      exact ⟨rfl, hr0⟩
    · rename_i hr0
      right
      rw [if_neg hfail, if_neg hr0]

theorem tset_done (f : Nat → TState) (t x : Nat) (v : TState) (p : Bool) (r : Int)
    (h : tset f t v x = .done p r) : (x = t ∧ v = .done p r) ∨ f x = .done p r := by
  unfold tset at h
  split at h
  · rename_i hxt
    exact Or.inl ⟨hxt, h⟩
  · exact Or.inr h

theorem signal_done (st : TState) (p : Bool) (r : Int) (h : signalT st = .done p r) :
    st = .done p r := by
  cases st <;> simp_all [signalT]

theorem foldl_signal_done (sigs : List Nat) (f : Nat → TState) (t : Nat) (p : Bool) (r : Int) :
    (sigs.foldl (fun g tid => tset g tid (signalT (g tid))) f) t = .done p r →
    f t = .done p r := by
  induction sigs generalizing f with
  | nil => exact id
  | cons a l ih =>
    intro h
    have h2 := ih (tset f a (signalT (f a))) h
    rcases tset_done _ _ _ _ _ _ h2 with ⟨hta, h3⟩ | h3
    · rw [hta]
      exact signal_done _ _ _ h3
    · exact h3

theorem deliver_done (sigs : List Nat) (s : Sys) (t : Nat) (p : Bool) (r : Int)
    (h : (deliver sigs s).ts t = .done p r) : s.ts t = .done p r :=
  foldl_signal_done sigs s.ts t p r h

theorem deliver_sm (sigs : List Nat) (s : Sys) : (deliver sigs s).sm = s.sm := rfl

theorem enterBody_ret (s : Sys) (t : Nat) (pre : Bool) :
    (enterBody s t pre).sm.ret = s.sm.ret := by
  unfold enterBody
  dsimp only
  split <;> rfl

theorem enterBody_done (s : Sys) (t : Nat) (pre : Bool) (x : Nat) (p : Bool) (r : Int)
    (h : (enterBody s t pre).ts x = .done p r) : s.ts x = .done p r := by
  unfold enterBody at h
  dsimp only at h
  split at h <;>
    (rcases tset_done _ _ _ _ _ _ h with ⟨_, h2⟩ | h2
     · cases h2
     · exact h2)

theorem continue_common_ret (sm : SM) : (gcs_sm_continue_common sm).1.ret = sm.ret :=
  wake_ret { sm with pause := false }

theorem sysInv_init (len : Nat) (n : Int) : SysInv (initSys len n) := by
  constructor
  · left; rfl
  · intro t p r h
    simp [initSys] at h

theorem sysInv_step (s : Sys) (a : Act) (hInv : SysInv s) : SysInv (step s a) := by
  obtain ⟨hret, hdone⟩ := hInv
  cases a with
  | schedEnter t pre =>
    simp only [step]
    split
    · skip
      split
      · constructor
        · rw [enterBody_ret]
          dsimp only
          rw [sched_ret]
          exact hret
        · intro x p r h
          have h2 := enterBody_done _ _ _ _ _ _ h
          exact hdone x p r h2
      · split
        · exact ⟨hret, hdone⟩
        · rename_i hsr hpre
          constructor
          · exact hret
          · intro x p r h
            rcases tset_done _ _ _ _ _ _ h with ⟨hxt, h2⟩ | h2
            · have hp : p = false ∧ r = (gcs_sm_schedule s.sm).1 := by
                constructor <;> injection h2.symm <;> simp_all
              obtain ⟨hp1, hp2⟩ := hp
              have hneg : (gcs_sm_schedule s.sm).1 < 0 := by omega
              rcases sched_fail s.sm hneg with ⟨h3, _⟩ | h3
              · exact Or.inr (Or.inr ⟨hp1, hp2.trans h3⟩)
              · rcases hret with h4 | h4
                · rw [h4] at h3
                  omega
                · exact Or.inr (Or.inl (by rw [hp2, h3, h4]))
            · exact hdone x p r h2
    · exact ⟨hret, hdone⟩
  | wake t =>
    simp only [step]
    split
    · rename_i slot pre hts
      split
      · split
        · constructor
          · rename_i hb hr0
            dsimp only
            rw [show (setSlot s.sm slot ⟨none, false⟩).ret = s.sm.ret from rfl]
            exact hret
          · intro x p r h
            rcases tset_done _ _ _ _ _ _ h with ⟨_, h2⟩ | h2
            · cases h2
            · exact hdone x p r h2
        · rename_i hb hr0
          constructor
          · rw [deliver_sm, leave_common_ret]
            rw [show (setSlot s.sm slot ⟨none, false⟩).ret = s.sm.ret from rfl]
            exact hret
          · intro x p r h
            have h2 := deliver_done _ _ _ _ _ h
            rcases tset_done _ _ _ _ _ _ h2 with ⟨hxt, h3⟩ | h3
            · have hp : p = pre ∧ r = (setSlot s.sm slot ⟨none, false⟩).ret := by
                constructor <;> injection h3.symm <;> simp_all
              obtain ⟨hp1, hp2⟩ := hp
              have hsr : (setSlot s.sm slot ⟨none, false⟩).ret = s.sm.ret := rfl
              rw [hsr] at hp2 hr0
              rcases hret with h4 | h4
              · exact absurd h4 hr0
              · exact Or.inr (Or.inl (hp2.trans h4))
            · exact hdone x p r h3
      · constructor
        · rw [show (setSlot s.sm slot ⟨none, false⟩).ret = s.sm.ret from rfl]
          exact hret
        · intro x p r h
          rcases tset_done _ _ _ _ _ _ h with ⟨_, h2⟩ | h2
          · have hp : p = pre ∧ r = -EINTR := by
              constructor <;> injection h2.symm <;> simp_all
            exact Or.inl hp.2
          · exact hdone x p r h2
    · exact ⟨hret, hdone⟩
  | leave t =>
    simp only [step]
    split
    · skip
      constructor
      · rw [deliver_sm, leave_common_ret]
        exact hret
      · intro x p r h
        have h2 := deliver_done _ _ _ _ _ h
        rcases tset_done _ _ _ _ _ _ h2 with ⟨_, h3⟩ | h3
        · cases h3
        · exact hdone x p r h3
    · exact ⟨hret, hdone⟩
  | pauseOp =>
    simp only [step]
    exact ⟨hret, hdone⟩
  | continueOp =>
    simp only [step]
    split
    · skip
      constructor
      · rw [deliver_sm, continue_common_ret]
        exact hret
      · intro x p r h
        exact hdone x p r (deliver_done _ _ _ _ _ h)
    · exact ⟨hret, hdone⟩
  | interruptOp hdl =>
    simp only [step]
    constructor
    · rw [deliver_sm, interrupt_ret]
      exact hret
    · intro x p r h
      exact hdone x p r (deliver_done _ _ _ _ _ h)
  | closeOp =>
    simp only [step]
    constructor
    · rw [deliver_sm]
      exact Or.inr rfl
    · intro x p r h
      exact hdone x p r (deliver_done _ _ _ _ _ h)

theorem sysInv_run (s : Sys) (acts : List Act) (h : SysInv s) : SysInv (runActs s acts) := by
  induction acts generalizing s with
  | nil => exact h
  | cons a l ih => exact ih (step s a) (sysInv_step s a h)

/-!
Claim theorems.
-/

/-- C1: on an open monitor with `users < L`, `gcs_sm_schedule` succeeds: it
increments `users`, advances the tail cursor, and returns 0 exactly when the
caller need not wait (`entered < C` and not paused), a positive ticket handle
otherwise; it returns CapacityExceeded (-EAGAIN) exactly when `users == L`
and the monitor is open, and returns the close code whenever the monitor was
previously closed. -/
theorem c1_schedule_spec (sm : SM)
    (hret : sm.ret = 0 ∨ sm.ret = -EBADFD)
    (husers : sm.users ≤ (sm.wait_q_len : Int)) :
    ((sm.ret = 0 ∧ sm.users < (sm.wait_q_len : Int)) →
      ((gcs_sm_schedule sm).2.users = sm.users + 1 ∧
       (gcs_sm_schedule sm).2.wait_q_tail = smInc sm sm.wait_q_tail ∧
       ((sm.entered < sm.cc ∧ sm.pause = false) → (gcs_sm_schedule sm).1 = 0) ∧
       (¬(sm.entered < sm.cc ∧ sm.pause = false) → 0 < (gcs_sm_schedule sm).1))) ∧
    ((gcs_sm_schedule sm).1 = -EAGAIN ↔ (sm.users = (sm.wait_q_len : Int) ∧ sm.ret = 0)) ∧
    (sm.ret = -EBADFD → (gcs_sm_schedule sm).1 = -EBADFD ∧ (gcs_sm_schedule sm).2 = sm) := by
  have hw0 : ∀ (u : Int) (t : Nat),
      hasToWait { sm with users := u, wait_q_tail := t } = hasToWait sm :=
    fun _ _ => rfl
  have hwform : hasToWait sm = false ↔ (sm.entered < sm.cc ∧ sm.pause = false) := by
    unfold hasToWait
    rw [Bool.or_eq_false_iff, decide_eq_false_iff_not]
    constructor
    · rintro ⟨h1, h2⟩
      exact ⟨by omega, h2⟩
    · rintro ⟨h1, h2⟩
      exact ⟨by omega, h2⟩
  refine ⟨?_, ?_, ?_⟩
  · rintro ⟨hr0, hlt⟩
    have hsucc : sm.users < (sm.wait_q_len : Int) ∧ sm.ret = 0 := ⟨hlt, hr0⟩
    unfold gcs_sm_schedule
    dsimp only
    rw [if_pos hsucc, hw0]
    by_cases ht : hasToWait sm = true
    · rw [if_pos ht]
      refine ⟨rfl, rfl, ?_, ?_⟩
      · intro hnw
        rw [hwform.mpr hnw] at ht
        cases ht
      · intro _
        have := Int.natCast_nonneg (smInc sm sm.wait_q_tail)
        dsimp only
        omega
    · rw [if_neg ht]
      refine ⟨rfl, rfl, fun _ => rfl, ?_⟩
      intro hn
      have hfalse : hasToWait sm = false := by
        cases hb : hasToWait sm
        · rfl
        · exact absurd hb ht
      exact absurd (hwform.mp hfalse) hn
  · constructor
    · intro h
      by_cases hsucc : sm.users < (sm.wait_q_len : Int) ∧ sm.ret = 0
      · exfalso
        unfold gcs_sm_schedule at h
        dsimp only at h
        rw [if_pos hsucc, hw0] at h
        split at h
        · dsimp only at h
          have := Int.natCast_nonneg (smInc sm sm.wait_q_tail)
          unfold EAGAIN at h
          omega
        · unfold EAGAIN at h
          omega
      · unfold gcs_sm_schedule at h
        dsimp only at h
        rw [if_neg hsucc] at h
        split at h
        · rename_i hr0
          refine ⟨?_, hr0⟩
          have : ¬ sm.users < (sm.wait_q_len : Int) := fun hc => hsucc ⟨hc, hr0⟩
          omega
        · rename_i hr0
          exfalso
          rcases hret with h4 | h4
          · exact hr0 h4
          · rw [h4] at h
            unfold EAGAIN EBADFD at h
            omega
    · rintro ⟨hu, hr0⟩
      have hns : ¬(sm.users < (sm.wait_q_len : Int) ∧ sm.ret = 0) := by
        rintro ⟨h1, _⟩
        omega
      unfold gcs_sm_schedule
      dsimp only
      rw [if_neg hns, if_pos hr0]
  · intro hbad
    have hns : ¬(sm.users < (sm.wait_q_len : Int) ∧ sm.ret = 0) := by
      rintro ⟨_, h1⟩
      rw [hbad] at h1
      unfold EBADFD at h1
      omega
    have hnr : ¬ sm.ret = 0 := by
      rw [hbad]
      unfold EBADFD
      omega
    unfold gcs_sm_schedule
    dsimp only
    rw [if_neg hns, if_neg hnr]
    exact ⟨hbad, rfl⟩

/-- Witness for the schedule theorem at a freshly created monitor: the first
caller need not wait. -/
theorem c1_schedule_spec_witness :
    (gcs_sm_schedule (gcs_sm_create 4 1)).1 = 0 := by
  have h := c1_schedule_spec (gcs_sm_create 4 1) (Or.inl rfl) (by decide)
  exact (h.1 ⟨rfl, by decide⟩).2.2.1 ⟨by decide, rfl⟩

/-- C2 counterexample: in the interleaving `c2Acts` (monitor len 8, C 1),
thread 1 is issued ticket 3 before thread 3 is issued ticket 5, no interrupt
and no pause occurs, yet the admission order is 0, 2, 3, 1: thread 3 enters
before thread 1, so admissions do not follow ticket issuance order. -/
theorem c2_counterexample :
    (runActs (initSys 8 1) c2Acts).entries = [0, 2, 3, 1] ∧
    (runActs (initSys 8 1) c2Acts).scheds = [(0, 0), (1, 3), (2, 0), (3, 5)] ∧
    c2Acts.all (fun a => match a with
      | .interruptOp _ => false
      | .pauseOp => false
      | _ => true) = true := by
  decide

/-- C2 amended: the wake-up routine signals only the first waiting slot at or
after the head cursor in ring order, skipping interrupted slots (whose users
count it reclaims), and never issues more signals than bring the admitted
count to C; full ticket-order admission does not hold for arbitrary
interleavings because a caller admitted without waiting can slip past a
signalled-but-not-yet-awake earlier ticket holder. -/
theorem c2_wake_ring_order (sm : SM) :
    ((gcs_sm_wake_up_next sm).2 = [] ∨
      sm.entered + ((gcs_sm_wake_up_next sm).2.length : Int) ≤ sm.cc) ∧
    (∀ tid, tid ∈ (gcs_sm_wake_up_next sm).2 →
      (getSlot sm (gcs_sm_wake_up_next sm).1.wait_q_head).wait = true ∧
      (getSlot sm (gcs_sm_wake_up_next sm).1.wait_q_head).cond = some tid) ∧
    (∃ k, (gcs_sm_wake_up_next sm).1.wait_q_head = incIter sm sm.wait_q_head k ∧
          (gcs_sm_wake_up_next sm).1.users = sm.users - (k : Int) ∧
          ∀ j, j < k → (getSlot sm (incIter sm sm.wait_q_head j)).wait = false) :=
  ⟨wakeAux_count _ sm _, fun tid h => wakeAux_sig _ sm _ tid h, wakeAux_walk _ sm _⟩

/-- Witness for the wake-up theorem: in the state where thread 1 was left
parked at slot 2, the wake-up routine signals exactly that waiting slot. -/
theorem c2_wake_ring_order_witness :
    (getSlot smSignaled (gcs_sm_wake_up_next smSignaled).1.wait_q_head).wait = true ∧
    (getSlot smSignaled (gcs_sm_wake_up_next smSignaled).1.wait_q_head).cond = some 1 :=
  (c2_wake_ring_order smSignaled).2.1 1 (by decide)

/-- C4 counterexample: an enter call with already_scheduled false on a full,
open monitor completes with CapacityExceeded (-EAGAIN), which is none of Ok,
Interrupted, Closed. -/
theorem c4_counterexample :
    (runActs (initSys 2 1) c4Acts).ts 2 = .done false (-EAGAIN) ∧
    ¬((-EAGAIN : Int) = 0 ∨ (-EAGAIN : Int) = -EINTR ∨ (-EAGAIN : Int) = -EBADFD) := by
  decide

/-- C4 amended: every completed enter call returns Interrupted or Closed (a
successful call instead leaves the thread inside the monitor, which is the
Ok outcome), except that a call with already_scheduled false may additionally
return CapacityExceeded when the schedule it performs itself fails. -/
theorem c4_enter_results (len : Nat) (n : Int) (acts : List Act) (t : Nat)
    (p : Bool) (r : Int)
    (hdone : (runActs (initSys len n) acts).ts t = .done p r) :
    r = -EINTR ∨ r = -EBADFD ∨ (p = false ∧ r = -EAGAIN) :=
  (sysInv_run (initSys len n) acts (sysInv_init len n)).2 t p r hdone

/-- Witness for the enter-result theorem at the concrete full-queue run. -/
theorem c4_enter_results_witness :
    (-EAGAIN : Int) = -EINTR ∨ (-EAGAIN : Int) = -EBADFD ∨
    (false = false ∧ (-EAGAIN : Int) = -EAGAIN) :=
  c4_enter_results 2 1 c4Acts 2 false (-EAGAIN) (by decide)

/-- C5: reachable violation of the concurrency invariant, contradicting the
code's own `assert(sm->entered < GCS_SM_CC)`: in the interleaving `c5Acts`
(thread 1 signalled by thread 0's leave; thread 2 schedules and enters
through the momentarily free slot before thread 1 resumes; thread 1 then
completes its admission), the monitor created with len 4, C 1 reaches
`entered = 2 > C`. -/
theorem c5_entered_bound_violated :
    (runActs (initSys 4 1) c5Acts).sm.cc = 1 ∧
    (runActs (initSys 4 1) c5Acts).sm.entered = 2 ∧
    ¬((runActs (initSys 4 1) c5Acts).sm.entered ≤ (runActs (initSys 4 1) c5Acts).sm.cc) := by
  decide

/-- C6 counterexample: first, pausing an already-closed monitor is not a
no-op: on a monitor closed while paused, `gcs_sm_pause` flips the pause flag
to false.  Second, while paused a ticket can still transition to Admitted: in
`c6ActsA` thread 1 is signalled before the pause and completes its admission
(state `inside`, `entered = 1`) while the pause flag is set. -/
theorem c6_counterexample :
    ((runActs (initSys 4 1) c6ActsB).sm.ret ≠ 0 ∧
     (runActs (initSys 4 1) c6ActsB).sm.pause = true ∧
     (gcs_sm_pause (runActs (initSys 4 1) c6ActsB).sm).pause = false) ∧
    ((runActs (initSys 4 1) c6ActsA).sm.pause = true ∧
     (runActs (initSys 4 1) c6ActsA).ts 1 = .waiting 2 true true ∧
     (step (runActs (initSys 4 1) c6ActsA) (.wake 1)).ts 1 = .inside ∧
     (step (runActs (initSys 4 1) c6ActsA) (.wake 1)).sm.pause = true ∧
     (step (runActs (initSys 4 1) c6ActsA) (.wake 1)).sm.entered = 1) := by
  decide

/-- C6 amended: `gcs_sm_pause` assigns the pause flag the open status of the
monitor (so on a closed monitor it clears the flag, a strict no-op only when
the flag was already clear) and changes nothing else; already-admitted
holders are unaffected.  While paused, no new admission is initiated: a
schedule called on a paused monitor always reports that the caller has to
wait, and a leave on a paused monitor signals nobody (a waiter already
signalled before the pause may however still complete its admission). -/
theorem c6_pause_spec (sm : SM) :
    ((gcs_sm_pause sm).pause = decide (sm.ret = 0) ∧
     (gcs_sm_pause sm).users = sm.users ∧
     (gcs_sm_pause sm).entered = sm.entered ∧
     (gcs_sm_pause sm).wait_q_head = sm.wait_q_head ∧
     (gcs_sm_pause sm).wait_q_tail = sm.wait_q_tail ∧
     (gcs_sm_pause sm).ret = sm.ret ∧
     (gcs_sm_pause sm).wait_q = sm.wait_q) ∧
    (sm.pause = true → hasToWait sm = true ∧ (gcs_sm_leave_common sm).2 = []) := by
  refine ⟨⟨rfl, rfl, rfl, rfl, rfl, rfl, rfl⟩, ?_⟩
  intro hp
  constructor
  · unfold hasToWait
    rw [hp, Bool.or_true]
  · unfold gcs_sm_leave_common
    dsimp only
    rw [if_pos hp]

/-- Witness for the pause theorem on a freshly paused monitor. -/
theorem c6_pause_spec_witness :
    hasToWait (gcs_sm_pause (gcs_sm_create 4 1)) = true ∧
    (gcs_sm_leave_common (gcs_sm_pause (gcs_sm_create 4 1))).2 = [] :=
  (c6_pause_spec (gcs_sm_pause (gcs_sm_create 4 1))).2 (by decide)

theorem getSlot_congr (a b : SM) (h : a.wait_q = b.wait_q) (i : Nat) :
    getSlot a i = getSlot b i := by
  simp [getSlot, h]

theorem interrupt_not_waiting (sm : SM) (hdl : Nat)
    (hw : (getSlot sm (hdl - 1)).wait = false) :
    gcs_sm_interrupt sm hdl = (-ESRCH, sm, []) := by
  unfold gcs_sm_interrupt
  dsimp only
  rw [if_neg (by simp [hw])]

/-- C3: `gcs_sm_interrupt` on a handle whose slot is waiting succeeds,
signals exactly the thread parked at that slot (first in its signal list),
clears the slot so a repeated interrupt on the same handle finds nothing
(NotFound, nobody signalled), and promotes the next eligible waiter exactly
when the interrupted slot was at the queue head and the monitor is not
paused; on a handle whose slot is not waiting (admitted, already left, or
already interrupted tickets all leave the waiter flag clear) it returns
NotFound (-ESRCH), signals nobody and changes nothing. -/
theorem c3_interrupt_spec :
    (∀ (sm : SM) (hdl : Nat), (getSlot sm (hdl - 1)).wait = false →
       gcs_sm_interrupt sm hdl = (-ESRCH, sm, [])) ∧
    (∀ (sm : SM) (hdl tid : Nat),
       hdl - 1 < sm.wait_q.length →
       (getSlot sm (hdl - 1)).wait = true →
       (getSlot sm (hdl - 1)).cond = some tid →
       (gcs_sm_interrupt sm hdl).1 = 0 ∧
       (∃ promoted,
          (gcs_sm_interrupt sm hdl).2.2 = tid :: promoted ∧
          ((sm.pause = true ∨ sm.wait_q_head ≠ hdl - 1) →
             promoted = [] ∧
             (gcs_sm_interrupt sm hdl).2.1 = setSlot sm (hdl - 1) ⟨none, false⟩) ∧
          ((sm.pause = false ∧ sm.wait_q_head = hdl - 1) →
             (gcs_sm_interrupt sm hdl).2.1 =
               (gcs_sm_wake_up_next (setSlot sm (hdl - 1) ⟨none, false⟩)).1 ∧
             promoted = (gcs_sm_wake_up_next (setSlot sm (hdl - 1) ⟨none, false⟩)).2)) ∧
       (gcs_sm_interrupt (gcs_sm_interrupt sm hdl).2.1 hdl).1 = -ESRCH ∧
       (gcs_sm_interrupt (gcs_sm_interrupt sm hdl).2.1 hdl).2.2 = []) := by
  constructor
  · exact interrupt_not_waiting
  · intro sm hdl tid hlen hw hcond
    have hps : (setSlot sm (hdl - 1) ⟨none, false⟩).pause = sm.pause := rfl
    have hhs : (setSlot sm (hdl - 1) ⟨none, false⟩).wait_q_head = sm.wait_q_head := rfl
    have hclear : (getSlot (setSlot sm (hdl - 1) ⟨none, false⟩) (hdl - 1)).wait = false := by
      rw [getSlot_setSlot_self sm (hdl - 1) ⟨none, false⟩ hlen]
    by_cases hc : sm.pause = false ∧ sm.wait_q_head = hdl - 1
    · have heq : gcs_sm_interrupt sm hdl =
          (0, (gcs_sm_wake_up_next (setSlot sm (hdl - 1) ⟨none, false⟩)).1,
           tid :: (gcs_sm_wake_up_next (setSlot sm (hdl - 1) ⟨none, false⟩)).2) := by
        unfold gcs_sm_interrupt
        dsimp only
        rw [if_pos hw, hcond, hps, hhs, if_pos hc]
        rfl
      rw [heq]
      have hclear2 : (getSlot (gcs_sm_wake_up_next
          (setSlot sm (hdl - 1) ⟨none, false⟩)).1 (hdl - 1)).wait = false := by
        rw [getSlot_congr _ _ (wake_wait_q _) (hdl - 1)]
        exact hclear
      have hsecond := interrupt_not_waiting _ hdl hclear2
      refine ⟨rfl, ⟨_, rfl, ?_, fun _ => ⟨rfl, rfl⟩⟩, ?_, ?_⟩
      · rintro (h1 | h1)
        · rw [hc.1] at h1
          cases h1
        · exact absurd hc.2 (by omega)
      · rw [hsecond]
      · rw [hsecond]
    · have heq : gcs_sm_interrupt sm hdl =
          (0, setSlot sm (hdl - 1) ⟨none, false⟩, [tid]) := by
        unfold gcs_sm_interrupt
        dsimp only
        rw [if_pos hw, hcond, hps, hhs, if_neg hc]
      rw [heq]
      have hsecond := interrupt_not_waiting _ hdl hclear
      refine ⟨rfl, ⟨[], rfl, fun _ => ⟨rfl, rfl⟩, fun h1 => absurd h1 hc⟩, ?_, ?_⟩
      · rw [hsecond]
      · rw [hsecond]

/-- Witness for the interrupt theorem: interrupting the parked thread in
`smWait` succeeds and a second interrupt on the same handle reports
NotFound. -/
theorem c3_interrupt_spec_witness :
    (gcs_sm_interrupt smWait 3).1 = 0 ∧
    (gcs_sm_interrupt (gcs_sm_interrupt smWait 3).2.1 3).1 = -ESRCH := by
  have h := c3_interrupt_spec.2 smWait 3 1 (by decide) (by decide) (by decide)
  exact ⟨h.1, h.2.2.1⟩

/-- C10: interrupting a waiting ticket whose slot is not at the queue head
leaves `users`, `entered`, head and tail unchanged, so a schedule issued
right afterwards with `users == L` on the open monitor still reports
CapacityExceeded; the slot's users count is reclaimed only by the wake-up
routine, which on reaching a non-waiting head slot decrements `users` and
advances the head cursor past it (skipping, in ring order, only non-waiting
slots). -/
theorem c10_interrupt_frame :
    (∀ (sm : SM) (hdl : Nat),
       (getSlot sm (hdl - 1)).wait = true →
       hdl - 1 ≠ sm.wait_q_head →
       (gcs_sm_interrupt sm hdl).1 = 0 ∧
       (gcs_sm_interrupt sm hdl).2.1.users = sm.users ∧
       (gcs_sm_interrupt sm hdl).2.1.entered = sm.entered ∧
       (gcs_sm_interrupt sm hdl).2.1.wait_q_head = sm.wait_q_head ∧
       (gcs_sm_interrupt sm hdl).2.1.wait_q_tail = sm.wait_q_tail ∧
       (sm.users = (sm.wait_q_len : Int) → sm.ret = 0 →
          (gcs_sm_schedule (gcs_sm_interrupt sm hdl).2.1).1 = -EAGAIN)) ∧
    (∀ (sm : SM),
       (getSlot sm sm.wait_q_head).wait = false →
       0 < sm.users → sm.entered < sm.cc →
       (gcs_sm_wake_up_next sm).1.users < sm.users ∧
       ∃ k, 1 ≤ k ∧
         (gcs_sm_wake_up_next sm).1.wait_q_head = incIter sm sm.wait_q_head k ∧
         (gcs_sm_wake_up_next sm).1.users = sm.users - (k : Int) ∧
         ∀ j, j < k → (getSlot sm (incIter sm sm.wait_q_head j)).wait = false) := by
  constructor
  · intro sm hdl hw hne
    have hps : (setSlot sm (hdl - 1) ⟨none, false⟩).pause = sm.pause := rfl
    have hhs : (setSlot sm (hdl - 1) ⟨none, false⟩).wait_q_head = sm.wait_q_head := rfl
    have hnc : ¬(sm.pause = false ∧ sm.wait_q_head = hdl - 1) := by
      rintro ⟨_, h2⟩
      exact hne h2.symm
    have heq : (gcs_sm_interrupt sm hdl).1 = 0 ∧
        (gcs_sm_interrupt sm hdl).2.1 = setSlot sm (hdl - 1) ⟨none, false⟩ := by
      unfold gcs_sm_interrupt
      dsimp only
      rw [if_pos hw, hps, hhs, if_neg hnc]
      exact ⟨rfl, rfl⟩
    refine ⟨heq.1, by rw [heq.2]; rfl, by rw [heq.2]; rfl, by rw [heq.2]; rfl,
      by rw [heq.2]; rfl, ?_⟩
    intro hu hr
    rw [heq.2]
    have hns : ¬(sm.users < (sm.wait_q_len : Int) ∧ sm.ret = 0) := by
      rintro ⟨h1, _⟩
      omega
    show (gcs_sm_schedule (setSlot sm (hdl - 1) ⟨none, false⟩)).1 = -EAGAIN
    unfold gcs_sm_schedule
    dsimp only [setSlot]
    rw [if_neg hns, if_pos hr]
  · intro sm hw hus hent
    have hfpos : wakeFuel sm sm.entered = (wakeFuel sm sm.entered - 1) + 1 := by
      unfold wakeFuel
      omega
    have hstep : gcs_sm_wake_up_next sm =
        wakeUpNextAux { sm with users := sm.users - 1, wait_q_head := smInc sm sm.wait_q_head }
          sm.entered (wakeFuel sm sm.entered - 1) := by
      unfold gcs_sm_wake_up_next
      conv_lhs => rw [hfpos]
      simp only [wakeUpNextAux]
      rw [if_pos ⟨hent, hus⟩, if_neg (by simp [hw])]
    have hlt : (gcs_sm_wake_up_next sm).1.users < sm.users := by
      rw [hstep]
      obtain ⟨k2, _, hu2, _⟩ := wakeAux_walk (wakeFuel sm sm.entered - 1)
        { sm with users := sm.users - 1, wait_q_head := smInc sm sm.wait_q_head } sm.entered
      rw [hu2]
      dsimp only
      have : (0 : Int) ≤ (k2 : Int) := Int.natCast_nonneg k2
      omega
    obtain ⟨k, hh, hu, hj⟩ := wakeAux_walk (wakeFuel sm sm.entered) sm sm.entered
    have hk1 : 1 ≤ k := by
      by_contra hk0
      have : k = 0 := by omega
      rw [this] at hu
      rw [show (gcs_sm_wake_up_next sm).1.users = sm.users - ((0 : Nat) : Int) from hu] at hlt
      simp at hlt
    exact ⟨hlt, k, hk1, hh, hu, hj⟩

/-- Witness for the interrupt frame theorem: interrupting the non-head
waiting slot of `smWait` keeps its users count, and the wake-up routine on
`smSkip` reclaims the interrupted head slot. -/
theorem c10_interrupt_frame_witness :
    (gcs_sm_interrupt smWait 3).1 = 0 ∧
    (gcs_sm_interrupt smWait 3).2.1.users = smWait.users ∧
    (gcs_sm_wake_up_next smSkip).1.users < smSkip.users := by
  have h1 := c10_interrupt_frame.1 smWait 3 (by decide) (by decide)
  have h2 := c10_interrupt_frame.2 smSkip (by decide) (by decide) (by decide)
  exact ⟨h1.1, h1.2.1, h2.1⟩

theorem refcnt_refTrx (w : Wsdb) (a : Nat) (h : 1 ≤ refcnt w a) :
    refcnt (refTrx w a) a = refcnt w a + 1 := by
  unfold refcnt at h ⊢
  unfold refTrx
  dsimp only
  rw [alFind_alSet_self]
  cases hf : alFind a w.heap with
  | none =>
    rw [hf] at h
    exact absurd h (by simp)
  | some t =>
    rfl

theorem refcnt_unrefHeap (w : Wsdb) (a : Nat) (h : 2 ≤ refcnt w a) :
    refcnt (unrefHeap w a) a = refcnt w a - 1 := by
  obtain ⟨t, hf⟩ : ∃ t, alFind a w.heap = some t := by
    unfold refcnt at h
    cases hh : alFind a w.heap with
    | none => rw [hh] at h; exact absurd h (by simp)
    | some t => exact ⟨t, rfl⟩
  have hrc : refcnt w a = t.refcnt := by
    unfold refcnt
    rw [hf]
  rw [hrc] at h ⊢
  unfold unrefHeap
  rw [hf]
  dsimp only
  rw [if_neg (by omega)]
  unfold refcnt
  dsimp only
  rw [alFind_alSet_self, hf]
  rfl

theorem unrefHeap_trx_map (w : Wsdb) (a : Nat) :
    (unrefHeap w a).trx_map = w.trx_map := by
  unfold unrefHeap
  split
  · rfl
  · split <;> rfl

theorem get_trx_found (w : Wsdb) (src : Nat) (id : Int) (a : Nat)
    (hf : alFind id w.trx_map = some a) :
    get_trx w src id true = (some a, refTrx w a) := by
  unfold get_trx
  rw [hf]

theorem getN_spec (src : Nat) (id : Int) (a : Nat) : ∀ (n : Nat) (w : Wsdb),
    alFind id w.trx_map = some a → 1 ≤ refcnt w a →
    alFind id (getN src id n w).trx_map = some a ∧
    refcnt (getN src id n w) a = refcnt w a + n := by
  intro n
  induction n with
  | zero =>
    intro w hf hc
    exact ⟨hf, rfl⟩
  | succ k ih =>
    intro w hf hc
    have hfound := get_trx_found w src id a hf
    have h22 : (get_trx w src id true).2 = refTrx w a := by rw [hfound]
    have hstep : getN src id (k + 1) w = getN src id k (refTrx w a) := by
      rw [show getN src id (k + 1) w = getN src id k (get_trx w src id true).2 from rfl, h22]
    have hf2 : alFind id (refTrx w a).trx_map = some a := hf
    have hc2 : refcnt (refTrx w a) a = refcnt w a + 1 := refcnt_refTrx w a hc
    obtain ⟨ih1, ih2⟩ := ih (refTrx w a) hf2 (by omega)
    rw [hstep]
    refine ⟨ih1, ?_⟩
    rw [ih2, hc2]
    omega

theorem unrefN_spec (a : Nat) : ∀ (n : Nat) (w : Wsdb),
    n + 1 ≤ refcnt w a →
    refcnt (unrefN a n w) a = refcnt w a - n := by
  intro n
  induction n with
  | zero =>
    intro w h
    rfl
  | succ k ih =>
    intro w h
    have h2 : refcnt (unrefHeap w a) a = refcnt w a - 1 := refcnt_unrefHeap w a (by omega)
    have hstep : unrefN a (k + 1) w = unrefN a k (unrefHeap w a) := rfl
    have h3 := ih (unrefHeap w a) (by omega)
    rw [hstep, h3, h2]
    omega

/-- C7 counterexample: on a fresh registry, the first
`get_or_create_conn_trx(7, create)` call returns the new handle at address 0
with reference count 1, and a second successful lookup for the same
connection returns the same handle with the count still 1: the conn-path
lookup does not increment the reference count. -/
theorem c7_counterexample :
    (get_conn_query Wsdb.empty 9 7 true).1 = some 0 ∧
    refcnt (get_conn_query Wsdb.empty 9 7 true).2 0 = 1 ∧
    (get_conn_query (get_conn_query Wsdb.empty 9 7 true).2 9 7 true).1 = some 0 ∧
    refcnt (get_conn_query (get_conn_query Wsdb.empty 9 7 true).2 9 7 true).2 0 = 1 := by
  decide

/-- C7 amended: every successful `get_trx` lookup increments the returned
handle's reference count by one: two successive create-lookups for an
unmapped id return the same fresh address with counts 2 then 3 (baseline plus
one per caller), N acquisitions followed by N releases restore the count, and
`discard_trx` removes the lookup entry.  `get_conn_query`, by contrast,
returns the attached transaction without incrementing its count (the
connection's own reference is the only registry-side reference). -/
theorem c7_trx_refcount :
    (∀ (w : Wsdb) (src : Nat) (id : Int), alFind id w.trx_map = none →
       (get_trx w src id true).1 = some w.nextAddr ∧
       refcnt (get_trx w src id true).2 w.nextAddr = 2 ∧
       (get_trx (get_trx w src id true).2 src id true).1 = some w.nextAddr ∧
       refcnt (get_trx (get_trx w src id true).2 src id true).2 w.nextAddr = 3) ∧
    (∀ (w : Wsdb) (src : Nat) (id : Int) (a n : Nat),
       alFind id w.trx_map = some a → 1 ≤ refcnt w a →
       refcnt (unrefN a n (getN src id n w)) a = refcnt w a) ∧
    (∀ (w : Wsdb) (id : Int), alFind id (discard_trx w id).trx_map = none) := by
  refine ⟨?_, ?_, ?_⟩
  · intro w src id hf
    simp [get_trx, hf, create_trx, allocTrx, refTrx, newTrx, refcnt, alSet, alFind,
      alFind_alSet_self]
  · intro w src id a n hf hc
    obtain ⟨h1, h2⟩ := getN_spec src id a n w hf hc
    have h3 := unrefN_spec a n (getN src id n w) (by omega)
    rw [h3, h2]
    omega
  · intro w id
    unfold discard_trx
    cases hf : alFind id w.trx_map with
    | none => exact hf
    | some a =>
      dsimp only
      exact alFind_alErase id _

/-- Witness for the refcount theorem: three acquisitions and three releases
on a handle held at count 2 return it to count 2. -/
theorem c7_trx_refcount_witness :
    refcnt (unrefN 0 3 (getN 9 5 3 (get_trx Wsdb.empty 9 5 true).2)) 0 = 2 := by
  have h := c7_trx_refcount.2.1 (get_trx Wsdb.empty 9 5 true).2 9 5 0 3
    (by decide) (by decide)
  exact h.trans (by decide)

theorem get_conn_query_fresh (w : Wsdb) (src : Nat) (c : Int) (conn1 : Conn)
    (hc1 : alFind c w.conn_map = some conn1) (hc2 : conn1.trx = none) :
    (get_conn_query w src c true).1 = some w.nextAddr ∧
    wsOf (get_conn_query w src c true).2 w.nextAddr = conn1.default_db := by
  unfold get_conn_query
  rw [hc1]
  dsimp only
  rw [if_pos ⟨hc2, rfl⟩]
  dsimp only [allocTrx, assign_trx, newTrx]
  rw [hc1]
  dsimp only
  rw [hc2]
  by_cases hq : conn1.default_db = []
  · simp [hq, wsOf, alFind]
  · simp [hq, wsOf, alFind]

/-- C8: after `set_conn_database(c, q)`, a `get_conn_query(c, create)` call on
a connection with no attached transaction returns a freshly created
transaction whose write-set consists of exactly the bytes of q: the stored
default-database query is prepended by byte concatenation to the (empty)
write-set of the new transaction before it is attached. -/
theorem c8_default_db_seed (w : Wsdb) (src : Nat) (c : Int) (q : List Nat)
    (hconn : alFind c w.conn_map = none ∨
             ∃ conn, alFind c w.conn_map = some conn ∧ conn.trx = none) :
    (get_conn_query (set_conn_database w c q) src c true).1 =
      some (set_conn_database w c q).nextAddr ∧
    wsOf (get_conn_query (set_conn_database w c q) src c true).2
      (set_conn_database w c q).nextAddr = q := by
  obtain ⟨conn1, hc1, hc2, hc3⟩ : ∃ conn1,
      alFind c (set_conn_database w c q).conn_map = some conn1 ∧
      conn1.trx = none ∧ conn1.default_db = q := by
    rcases hconn with hn | ⟨conn, hs, ht⟩
    · refine ⟨⟨c, none, q⟩, ?_, rfl, rfl⟩
      unfold set_conn_database
      rw [hn]
      dsimp only [create_conn]
      rw [alFind_alSet_self]
      simp [alFind]
    · refine ⟨{ conn with default_db := q }, ?_, ht, rfl⟩
      unfold set_conn_database
      rw [hs]
      dsimp only
      rw [alFind_alSet_self, hs]
      rfl
  have h := get_conn_query_fresh (set_conn_database w c q) src c conn1 hc1 hc2
  rw [hc3] at h
  exact h

/-- Witness for the default-database seeding theorem with the bytes of the
query "USE". -/
theorem c8_default_db_seed_witness :
    (get_conn_query (set_conn_database Wsdb.empty 3 [85, 83, 69]) 9 3 true).1 =
      some (set_conn_database Wsdb.empty 3 [85, 83, 69]).nextAddr ∧
    wsOf (get_conn_query (set_conn_database Wsdb.empty 3 [85, 83, 69]) 9 3 true).2
      (set_conn_database Wsdb.empty 3 [85, 83, 69]).nextAddr = [85, 83, 69] :=
  c8_default_db_seed Wsdb.empty 9 3 [85, 83, 69] (Or.inl rfl)

/-- C9: `unref_trx` passes the code's `assert(trx->refcnt() > 1)` exactly when
the count is strictly greater than 1 before the call (there is no recoverable
error path: a violating call is a programming error); under that precondition
it decrements the count by exactly one, leaving the baseline reference
alive. -/
theorem c9_release_spec (w : Wsdb) (a : Nat) :
    ((unref_trx w a).1 = true ↔ 1 < refcnt w a) ∧
    (1 < refcnt w a →
      refcnt (unref_trx w a).2 a = refcnt w a - 1 ∧
      1 ≤ refcnt (unref_trx w a).2 a) := by
  constructor
  · simp [unref_trx]
  · intro h
    have h2 := refcnt_unrefHeap w a (by omega)
    rw [show (unref_trx w a).2 = unrefHeap w a from rfl, h2]
    exact ⟨rfl, by omega⟩

/-- Witness for the release theorem on a handle held at count 2. -/
theorem c9_release_spec_witness :
    (unref_trx (get_trx Wsdb.empty 9 5 true).2 0).1 = true ∧
    refcnt (unref_trx (get_trx Wsdb.empty 9 5 true).2 0).2 0 = 1 := by
  have h := c9_release_spec (get_trx Wsdb.empty 9 5 true).2 0
  refine ⟨h.1.mpr (by decide), ?_⟩
  exact (h.2 (by decide)).1.trans (by decide)
